import Mathlib

/-
Verification of the core claims about the fyne OpenGL driver loop
(src/driver/gl/loop.go) and the text provider widget buffer
(src/widget, textProvider).  Go code is shallowly embedded: slices become
lists, Go slice expressions that can go out of range become Option-valued
operations, loops become structural recursion, and the concurrency of the
dispatcher is modelled by explicit small-step machines whose schedules are
data.
-/

set_option maxRecDepth 4000

/-! ## Go slice primitives

A Go slice expression a[:hi] or a[lo:] with an out-of-range index is a
runtime panic; we model the panic as none.  The bound used by Go for an
omitted high index is len(a). -/

/-- Go expression a[:hi]: valid when hi is at most len(a). -/
def goSliceTo (xs : List Char) (hi : Nat) : Option (List Char) :=
  if hi ≤ xs.length then some (xs.take hi) else none

/-- Go expression a[lo:]: valid when lo is at most len(a). -/
def goSliceFrom (xs : List Char) (lo : Nat) : Option (List Char) :=
  if lo ≤ xs.length then some (xs.drop lo) else none

/-- Go expression a[lo:hi]: valid when lo ≤ hi ≤ len(a). -/
def goSliceRange (xs : List Char) (lo hi : Nat) : Option (List Char) :=
  if lo ≤ hi ∧ hi ≤ xs.length then some ((xs.drop lo).take (hi - lo)) else none

/-! ## textProvider (src/widget, second document of infprogressbar_test.go)

The buffer of runes becomes a list of characters, rowBounds becomes a list
of pairs.  The presenter, the mutex and the renderer refresh are not part
of any claim and are omitted; every operation below performs exactly the
buffer and rowBounds updates of the Go source. -/

structure TextProvider where
  buffer : List Char
  rowBounds : List (Nat × Nat)
deriving DecidableEq

/-- Inner loop of updateRowBounds, written as recursion over the rest of
the buffer.  The Go loop walks the buffer with index i keeping lowBound
and highBound; at a newline it appends the pair (lowBound, i) and resets
lowBound to i+1; after the loop it appends (lowBound, lastIndex+1).
Here low is lowBound, i is the index of the head of the remaining list,
and the final append corresponds to the base case where i = len(buffer). -/
def rowBoundsAux (low i : Nat) : List Char → List (Nat × Nat)
  | [] => [(low, i)]
  | c :: rest =>
    if c = '\n' then (low, i) :: rowBoundsAux (i + 1) (i + 1) rest
    else rowBoundsAux low (i + 1) rest

/-- updateRowBounds from the source: empty buffer yields the single row
(0, 0); otherwise the newline scan above. -/
def updateRowBounds (buf : List Char) : List (Nat × Nat) :=
  if buf.length = 0 then [(0, 0)] else rowBoundsAux 0 0 buf

/-- newTextProvider: sets the buffer from the text and calls
updateRowBounds (the nil-presenter panic is outside the claims). -/
def newTextProvider (text : List Char) : TextProvider :=
  ⟨text, updateRowBounds text⟩

/-- SetText: replaces the buffer and recomputes the row bounds. -/
def SetText (_t : TextProvider) (text : List Char) : TextProvider :=
  ⟨text, updateRowBounds text⟩

/-- insertAt from the source: if len(buffer) < pos the runes are appended
at the end, otherwise the Go expression
append(buffer[:pos], append(runes, buffer[pos:]...)...) splices them in.
The two slice expressions are modelled with goSliceTo and goSliceFrom so
that an out-of-range access would surface as none. -/
def insertAt (t : TextProvider) (pos : Nat) (runes : List Char) :
    Option TextProvider :=
  if t.buffer.length < pos then
    let buf := t.buffer ++ runes
    some ⟨buf, updateRowBounds buf⟩
  else do
    let pre ← goSliceTo t.buffer pos
    let suf ← goSliceFrom t.buffer pos
    let buf := pre ++ runes ++ suf
    some ⟨buf, updateRowBounds buf⟩

/-- deleteFromTo from the source: copies buffer[lo:hi] out and keeps
append(buffer[:lo], buffer[hi:]...).  The make of a slice of length
hi - lo and the slice expression buffer[lo:hi] require lo ≤ hi ≤ len. -/
def deleteFromTo (t : TextProvider) (lo hi : Nat) :
    Option (TextProvider × List Char) :=
  match goSliceRange t.buffer lo hi with
  | none => none
  | some deleted =>
    let buf := t.buffer.take lo ++ t.buffer.drop hi
    some (⟨buf, updateRowBounds buf⟩, deleted)

/-- rows from the source: the number of row bounds. -/
def rows (t : TextProvider) : Nat := t.rowBounds.length

/-- row from the source: bounds := rowBounds[r]; buffer[bounds[0]:bounds[1]].
Both the index and the slice are fallible. -/
def row (t : TextProvider) (r : Nat) : Option (List Char) :=
  match t.rowBounds.get? r with
  | none => none
  | some b => goSliceRange t.buffer b.1 b.2

/-- The row-bounds invariant of claim C10: at least one row, and every
entry is an in-bounds, well-ordered pair of buffer indices. -/
def rowBoundsInv (t : TextProvider) : Prop :=
  t.rowBounds ≠ [] ∧ ∀ p ∈ t.rowBounds, p.1 ≤ p.2 ∧ p.2 ≤ t.buffer.length

/-! ## The synchronous dispatcher and the loop thread
(src/driver/gl/loop.go, runOnMain lines 35-46, runGL consumer lines 69-73)

runOnMain(f) checks running(): if false, it calls f() inline on the
calling thread; if true, it makes a done channel, sends funcData{f, done}
on the unbuffered funcQueue and blocks on done.  The only receiver of
funcQueue is the select of runGL, executed by the loop thread.  We model
one client goroutine and the loop thread; an action body is either a plain
effect (appending a number to a log) or a body that itself calls runOnMain
synchronously, which is the reentrancy case of claim C1.  The step
function is the next enabled transition of the two threads; none means no
thread can move. -/

inductive Act where
  | incr (k : Nat)
  | callRunOnMain (k : Nat)
deriving DecidableEq

/-- Location of the loop thread inside runGL. -/
inductive MainLoc where
  | atSelect
  | execBody (a : Act)
  | signalDone
  | nestedSend (k : Nat)
deriving DecidableEq

/-- Location of the client goroutine inside runOnMain. -/
inductive ClientLoc where
  | start (a : Act)
  | blockedSend (a : Act)
  | waitingDone
  | returned
deriving DecidableEq

structure SyncSys where
  runFlag : Bool
  mainLoc : MainLoc
  client : ClientLoc
  log : List Nat
  dequeues : Nat
deriving DecidableEq

/-- Body of an action when it runs inline with running() = false: a plain
effect appends its number; a body that calls runOnMain again also runs its
inner effect inline, because the nested call reads running() = false too
(loop.go lines 36-39). -/
def inlineRun (log : List Nat) : Act → List Nat
  | .incr k => log ++ [k]
  | .callRunOnMain k => log ++ [k]

/-- One small step of the two-thread system, straight from loop.go:
the client branch of runOnMain (lines 36-44), the rendezvous of the
unbuffered funcQueue with the select receiver (line 69), execution of the
dequeued body (line 70), and the done signal (lines 71-72).  A send on
funcQueue can complete only while the loop thread sits at the select;
when the loop thread itself is the sender, nothing can receive. -/
def step (s : SyncSys) : Option SyncSys :=
  match s.client, s.mainLoc with
  | .start a, _ =>
    if s.runFlag = false then
      some { s with client := .returned, log := inlineRun s.log a }
    else
      some { s with client := .blockedSend a }
  | .blockedSend a, .atSelect =>
    some { s with mainLoc := .execBody a, client := .waitingDone,
                  dequeues := s.dequeues + 1 }
  | _, .execBody (.incr k) =>
    some { s with mainLoc := .signalDone, log := s.log ++ [k] }
  | _, .execBody (.callRunOnMain k) =>
    if s.runFlag = false then
      some { s with mainLoc := .signalDone, log := s.log ++ [k] }
    else
      some { s with mainLoc := .nestedSend k }
  | .waitingDone, .signalDone =>
    some { s with mainLoc := .atSelect, client := .returned }
  | _, .nestedSend _ => none
  | _, _ => none

/-- Iterate the step function n times, propagating a stuck system. -/
def stepN : Nat → SyncSys → Option SyncSys
  | 0, s => some s
  | n + 1, s =>
    match step s with
    | none => none
    | some s1 => stepN n s1

/-! ## The asynchronous dispatcher
(src/driver/gl/loop.go, runOnMainAsync lines 48-52)

runOnMainAsync(f) executes go func() { funcQueue <- funcData{f, nil} }():
every call spawns a fresh goroutine that performs the send.  The language
gives no ordering between two spawned goroutines, so the order in which
the sends reach the channel is a scheduling choice.  The channel itself is
received only by the loop select, one item at a time, in arrival order.
A schedule is a list of choices: let a given spawned sender reach the
channel, or let the loop consume the front sender.  The consumer runs the
body immediately and, since done is nil, signals nothing (lines 70-72). -/

structure AsyncSys where
  spawned : List Nat
  senderQ : List Nat
  arrived : List Nat
  executed : List Nat
deriving DecidableEq

inductive AStep where
  | arrive (g : Nat)
  | consume
deriving DecidableEq

def astep (s : AsyncSys) : AStep → AsyncSys
  | .arrive g =>
    if g ∈ s.spawned then
      ⟨s.spawned.erase g, s.senderQ ++ [g], s.arrived ++ [g], s.executed⟩
    else s
  | .consume =>
    match s.senderQ with
    | [] => s
    | g :: rest => ⟨s.spawned, rest, s.arrived, s.executed ++ [g]⟩

/-- One goroutine calling runOnMainAsync once per listed action, in list
order: each call only spawns a sender goroutine. -/
def runOnMainAsyncAll (fs : List Nat) : AsyncSys := ⟨fs, [], [], []⟩

def runSched (s : AsyncSys) : List AStep → AsyncSys := List.foldl astep s

/-! ## The render tick over the window list
(src/driver/gl/loop.go, runGL lines 76-107)

The fps case of the select polls events and then runs
for i, win := range d.windows.  The range header is captured once, so the
loop visits indices 0 .. N-1 of the original length N, but every element
read goes to the shared backing array, which the removal
d.windows = append(d.windows[:i], d.windows[i+1:]...) mutates in place:
positions i .. len-2 receive the elements previously at i+1 .. len-1 and
positions from len-1 on keep their old values, while the live length drops
by one.  The slice expression d.windows[i+1:] requires i+1 ≤ len(d.windows)
and otherwise panics, which the model reports as none.  A window value
carries the observations the tick makes of it: the close flag, the master
flag and the canvas dirtiness.  Each visit first drains the texture queue
of the canvas (the call to freeDirtyTextures at line 82), then handles
closing, then paints and swaps only when dirty. -/

structure GoWin where
  wid : Nat
  shouldClose : Bool
  master : Bool
  dirty : Bool
deriving DecidableEq

inductive Effect where
  | drained (w : GoWin)
  | destroyed (w : GoWin)
  | painted (w : GoWin)
  | swapped (w : GoWin)
deriving DecidableEq

structure TickSt where
  backing : List GoWin
  len : Nat
  quit : Bool
  effects : List Effect
deriving DecidableEq

/-- In-place result of append(d.windows[:i], d.windows[i+1:]...) on the
backing array of the captured range slice, where len is the current live
length. -/
def spliceRemove (backing : List GoWin) (i len : Nat) : List GoWin :=
  backing.take i ++ (backing.drop (i + 1)).take (len - 1 - i) ++
    backing.drop (len - 1)

/-- The live window list d.windows: the first len positions of the
backing array. -/
def windowsOf (st : TickSt) : List GoWin := st.backing.take st.len

/-- The body of the range loop, one iteration per unit of the todo
counter, visiting index i of the captured range slice.  The branches are,
in source order: freeDirtyTextures (line 82), the ShouldClose removal with
viewport.Destroy and d.Quit on the master flag (lines 84-92), the
not-dirty skip (lines 95-97), and the paint plus swap (lines 98-106). -/
def tickIter (st : TickSt) (i : Nat) : Nat → Option TickSt
  | 0 => some st
  | todo + 1 =>
    match st.backing.get? i with
    | none => none
    | some win =>
      if win.shouldClose then
        if i + 1 ≤ st.len then
          tickIter
            ⟨spliceRemove st.backing i st.len, st.len - 1,
             st.quit || win.master,
             st.effects ++ [Effect.drained win, Effect.destroyed win]⟩
            (i + 1) todo
        else none
      else if win.dirty then
        tickIter ⟨st.backing, st.len, st.quit,
          st.effects ++ [Effect.drained win, Effect.painted win,
            Effect.swapped win]⟩ (i + 1) todo
      else
        tickIter ⟨st.backing, st.len, st.quit,
          st.effects ++ [Effect.drained win]⟩ (i + 1) todo

/-- One whole fps tick over the window list. -/
def renderTick (ws : List GoWin) : Option TickSt :=
  tickIter ⟨ws, ws.length, false, []⟩ 0 ws.length

def winA : GoWin := ⟨0, false, false, false⟩
def winB : GoWin := ⟨1, true, false, false⟩
def winC : GoWin := ⟨2, false, false, false⟩

/-- Relation between the quit flag and the destroyed-window effects:
quit is set exactly when some removed window had the master flag
(loop.go lines 89-91). -/
def MasterQuit (st : TickSt) : Prop :=
  st.quit = true ↔ ∃ w, Effect.destroyed w ∈ st.effects ∧ w.master = true

/-- Paint and swap effects only happen to windows observed dirty
(loop.go lines 95-105). -/
def PaintDirty (st : TickSt) : Prop :=
  ∀ w, (Effect.painted w ∈ st.effects → w.dirty = true) ∧
       (Effect.swapped w ∈ st.effects → w.dirty = true)

/-- A destroyed window is no longer in the live window list (assuming no
duplicates), and the live list stays duplicate-free. -/
def DestroyedGone (st : TickSt) : Prop :=
  (windowsOf st).Nodup ∧
  ∀ w, Effect.destroyed w ∈ st.effects → w ∉ windowsOf st

def winP : GoWin := ⟨10, true, false, false⟩
def winQ : GoWin := ⟨11, false, false, true⟩
def winR : GoWin := ⟨12, false, false, false⟩

/-! ## Driver lifecycle: run flag, shutdown signal, loop termination
(src/driver/gl/loop.go, running lines 28-32, runGL lines 54-67)

runGL sets runFlag to true under the mutex when it starts (lines 55-58)
and then loops over the select.  The shutdown case (lines 64-67) stops the
fps ticker, terminates the window subsystem and returns; it never writes
runFlag.  The delivery of the shutdown signal by d.Quit is not among the
given sources and is modelled from the spec: Quit makes the shutdown
signal pending on d.done, and the select consumes it.  A tick runs the
window loop of renderTick; a removed master window calls d.Quit
(lines 89-91).  The slice panic inside a tick crashes the process. -/

inductive LoopStage where
  | notStarted
  | looping
  | exited
  | crashed
deriving DecidableEq

structure DriverState where
  runFlag : Bool
  stage : LoopStage
  donePending : Bool
  windows : List GoWin
deriving DecidableEq

/-- running() from the source: reads the flag under the mutex. -/
def running (s : DriverState) : Bool := s.runFlag

inductive DStep where
  | start
  | quit
  | selectOnce
  | tickOnce
deriving DecidableEq

def dstep (s : DriverState) : DStep → DriverState
  | .start =>
    if s.stage = .notStarted then { s with runFlag := true, stage := .looping }
    else s
  | .quit => { s with donePending := true }
  | .selectOnce =>
    if s.stage = .looping ∧ s.donePending = true then
      { s with stage := .exited, donePending := false }
    else s
  | .tickOnce =>
    if s.stage = .looping then
      match renderTick s.windows with
      | some st => { s with windows := windowsOf st,
                            donePending := s.donePending || st.quit }
      | none => { s with stage := .crashed }
    else s

def applySteps (s : DriverState) (l : List DStep) : DriverState :=
  l.foldl dstep s

/-- Driver state before runGL starts. -/
def driverStart (ws : List GoWin) : DriverState := ⟨false, .notStarted, false, ws⟩

def winM : GoWin := ⟨5, true, true, false⟩

/-! ## The texture garbage collector (src/driver/gl/loop.go lines 111-132)

freeDirtyTextures drains the refresh queue of a canvas without blocking,
one pass over the items in queue order.  For each dequeued object it calls
canvas.walkObjects(object, origin, freeWalked).  The closure freeWalked
loads the texture entry of the captured dequeued object (not of the walked
obj), and when an entry with a nonzero handle is present it issues one
gl.DeleteTextures call and deletes the cache entry keyed by the walked
obj.  The texture cache sync.Map becomes an association list with unique
keys; object identity becomes a number. -/

inductive ObjTree where
  | node (oid : Nat) (children : List ObjTree)

def ObjTree.rootId : ObjTree → Nat
  | .node oid _ => oid

mutual

/-- Modelled from the spec: walkObjects is the depth-first traversal of
the object tree that invokes the visit function on every rendered object;
its body lives in the canvas code outside the given sources.  Depth-first
order visits an object and then its children. -/
def walkTree : ObjTree → List Nat
  | .node oid cs => oid :: walkForest cs

/-- Modelled from the spec: the traversal of the children of a node, in
order. -/
def walkForest : List ObjTree → List Nat
  | [] => []
  | t :: ts => walkTree t ++ walkForest ts

end

structure GCSt where
  textures : List (Nat × Nat)
  deletions : List Nat
deriving DecidableEq

/-- sync.Map Load on the texture cache. -/
def texLookup : List (Nat × Nat) → Nat → Option Nat
  | [], _ => none
  | (k, v) :: rest, o => if k = o then some v else texLookup rest o

/-- sync.Map Delete on the texture cache. -/
def texDelete : List (Nat × Nat) → Nat → List (Nat × Nat)
  | [], _ => []
  | (k, v) :: rest, o => if k = o then rest else (k, v) :: texDelete rest o

/-- The freeWalked closure from the source: object is the dequeued
reference captured by the closure, obj the currently walked object.  The
lookup uses object, the delete uses obj, exactly as in the source. -/
def freeWalked (object : Nat) (st : GCSt) (obj : Nat) : GCSt :=
  match texLookup st.textures object with
  | some texture =>
    if 0 < texture then
      ⟨texDelete st.textures obj, st.deletions ++ [texture]⟩
    else st
  | none => st

/-- Handling of one dequeued canvas object reference. -/
def processDirtyObject (st : GCSt) (t : ObjTree) : GCSt :=
  (walkTree t).foldl (freeWalked t.rootId) st

/-- freeDirtyTextures: a single draining pass over the queue. -/
def freeDirtyTextures (st : GCSt) (queue : List ObjTree) : GCSt :=
  queue.foldl processDirtyObject st

/-! ### Row bounds lemmas -/

theorem rowBoundsAux_ne_nil (l : List Char) : ∀ low i, rowBoundsAux low i l ≠ [] := by
  induction l with
  | nil => intro low i; simp [rowBoundsAux]
  | cons c rest ih =>
    intro low i
    by_cases h : c = '\n' <;> simp [rowBoundsAux, h, ih]

theorem rowBoundsAux_bounds (l : List Char) : ∀ low i, low ≤ i →
    ∀ p ∈ rowBoundsAux low i l, p.1 ≤ p.2 ∧ p.2 ≤ i + l.length := by
  induction l with
  | nil =>
    intro low i hlow p hp
    simp [rowBoundsAux] at hp
    subst hp
    exact ⟨hlow, Nat.le_add_right i _⟩
  | cons c rest ih =>
    intro low i hlow p hp
    by_cases h : c = '\n'
    · simp [rowBoundsAux, h] at hp
      rcases hp with hp | hp
      · subst hp
        exact ⟨hlow, Nat.le_add_right i _⟩
      · have hq := ih (i + 1) (i + 1) (Nat.le_refl _) p hp
        refine ⟨hq.1, ?_⟩
        have := hq.2
        simp only [List.length_cons]
        omega
    · simp [rowBoundsAux, h] at hp
      have hq := ih low (i + 1) (Nat.le_succ_of_le hlow) p hp
      refine ⟨hq.1, ?_⟩
      have := hq.2
      simp only [List.length_cons]
      omega

theorem updateRowBounds_inv (buf : List Char) :
    updateRowBounds buf ≠ [] ∧
    ∀ p ∈ updateRowBounds buf, p.1 ≤ p.2 ∧ p.2 ≤ buf.length := by
  unfold updateRowBounds
  by_cases h : buf.length = 0
  · simp [h]
  · simp only [h, if_false]
    refine ⟨rowBoundsAux_ne_nil buf 0 0, ?_⟩
    intro p hp
    have := rowBoundsAux_bounds buf 0 0 (Nat.le_refl 0) p hp
    simpa using this

theorem rowBoundsInv_mk (buf : List Char) :
    rowBoundsInv ⟨buf, updateRowBounds buf⟩ :=
  updateRowBounds_inv buf

theorem row_isSome_of_inv (t : TextProvider) (r : Nat)
    (hinv : rowBoundsInv t) (hr : r < rows t) : (row t r).isSome = true := by
  rcases hinv with ⟨-, hb⟩
  unfold rows at hr
  have hget : t.rowBounds.get? r = some t.rowBounds[r] := by
    rw [List.get?_eq_getElem?]
    exact List.getElem?_eq_getElem hr
  unfold row
  rw [hget]
  have hbb := hb _ (List.getElem_mem hr)
  simp [goSliceRange, hbb.1, hbb.2]

/-- Claim C9: for every buffer state and every position, insertAt never
indexes out of range: if pos exceeds the buffer length the runes are
appended, otherwise they are spliced in at pos; the call always returns a
value (it never panics) for any non-negative position. -/
theorem insertAt_total_spliced (t : TextProvider) (pos : Nat) (runes : List Char) :
    insertAt t pos runes =
      some ⟨(if t.buffer.length < pos then t.buffer ++ runes
             else t.buffer.take pos ++ runes ++ t.buffer.drop pos),
            updateRowBounds (if t.buffer.length < pos then t.buffer ++ runes
             else t.buffer.take pos ++ runes ++ t.buffer.drop pos)⟩ := by
  unfold insertAt
  by_cases h : t.buffer.length < pos
  · simp [h]
  · have hle : pos ≤ t.buffer.length := Nat.le_of_not_lt h
    simp [h, goSliceTo, goSliceFrom, hle, Option.bind]

/-- Claim C10: construction, SetText, insertAt and deleteFromTo all
re-establish the row-bounds invariant: at least one row, every bound pair
(lo, hi) satisfies lo ≤ hi ≤ len(buffer), and hence every row index below
rows() yields an in-bounds slice of the buffer. -/
theorem rowBounds_invariant_all_ops :
    (∀ text : List Char, rowBoundsInv (newTextProvider text)) ∧
    (∀ (t : TextProvider) (text : List Char), rowBoundsInv (SetText t text)) ∧
    (∀ (t : TextProvider) (pos : Nat) (runes : List Char) (t' : TextProvider),
      insertAt t pos runes = some t' → rowBoundsInv t') ∧
    (∀ (t : TextProvider) (lo hi : Nat) (t' : TextProvider) (del : List Char),
      deleteFromTo t lo hi = some (t', del) → rowBoundsInv t') ∧
    (∀ (t : TextProvider) (r : Nat),
      rowBoundsInv t → r < rows t → (row t r).isSome = true) := by
  refine ⟨fun text => rowBoundsInv_mk text,
         fun _t text => rowBoundsInv_mk text, ?_, ?_,
         fun t r hi hr => row_isSome_of_inv t r hi hr⟩
  · intro t pos runes t' h
    rw [insertAt_total_spliced] at h
    cases h
    exact rowBoundsInv_mk _
  · intro t lo hi t' del h
    unfold deleteFromTo at h
    cases hsl : goSliceRange t.buffer lo hi with
    | none => rw [hsl] at h; cases h
    | some d =>
      rw [hsl] at h
      simp at h
      rcases h with ⟨h1, -⟩
      rw [← h1]
      exact rowBoundsInv_mk _

/-- Witness for C10 at concrete inputs: a buffer with a newline, an
insertion, a deletion and a row read all check out. -/
theorem rowBounds_invariant_all_ops_witness :
    rowBoundsInv (newTextProvider ['a', '\n', 'b']) ∧
    rowBoundsInv (SetText (newTextProvider []) ['x']) ∧
    rowBoundsInv (⟨['a', 'z', 'b'], [(0, 3)]⟩ : TextProvider) ∧
    rowBoundsInv (⟨['a'], [(0, 1)]⟩ : TextProvider) ∧
    (row (newTextProvider ['a', '\n', 'b']) 1).isSome = true := by
  refine ⟨rowBounds_invariant_all_ops.1 _,
         rowBounds_invariant_all_ops.2.1 _ _, ?_, ?_, ?_⟩
  · exact rowBounds_invariant_all_ops.2.2.1 (newTextProvider ['a', 'b']) 1 ['z']
      ⟨['a', 'z', 'b'], [(0, 3)]⟩ (by decide)
  · exact rowBounds_invariant_all_ops.2.2.2.1 (newTextProvider ['a', 'x', 'y']) 1 3
      ⟨['a'], [(0, 1)]⟩ ['x', 'y'] (by decide)
  · exact rowBounds_invariant_all_ops.2.2.2.2 _ 1
      (rowBounds_invariant_all_ops.1 _) (by decide)

/-- Claim C1 as stated is false: with the loop running (runFlag true), an
action dequeued by the loop that itself calls runOnMain does not run the
inner body inline; the loop thread blocks sending on funcQueue, the system
has no further step, the inner effect never happens (empty log) and the
outer caller never returns.  This is the reentrant deadlock. -/
theorem runOnMain_reentrant_deadlocks :
    stepN 3 ⟨true, .atSelect, .start (.callRunOnMain 7), [], 0⟩ =
      some ⟨true, .nestedSend 7, .waitingDone, [], 1⟩ ∧
    step ⟨true, .nestedSend 7, .waitingDone, [], 1⟩ = none ∧
    (⟨true, .nestedSend 7, .waitingDone, [], 1⟩ : SyncSys).log = [] ∧
    (⟨true, .nestedSend 7, .waitingDone, [], 1⟩ : SyncSys).client ≠ .returned := by
  refine ⟨rfl, rfl, rfl, by decide⟩

/-- Amended C1: runOnMain runs f inline exactly when running() is false;
the check is the process-wide flag, not thread identity.  Once the flag is
true every call goes through the queue, including a reentrant call made on
the loop thread from inside a dequeued action, and that reentrant call
deadlocks: after three steps the system is stuck with the inner effect
never executed. -/
theorem runOnMain_inline_iff_not_running :
    (∀ k : Nat, step ⟨false, .atSelect, .start (.incr k), [], 0⟩ =
      some ⟨false, .atSelect, .returned, [k], 0⟩) ∧
    (∀ k : Nat, step ⟨true, .atSelect, .start (.incr k), [], 0⟩ =
      some ⟨true, .atSelect, .blockedSend (.incr k), [], 0⟩) ∧
    (stepN 3 ⟨true, .atSelect, .start (.callRunOnMain 11), [], 0⟩ =
      some ⟨true, .nestedSend 11, .waitingDone, [], 1⟩ ∧
     step ⟨true, .nestedSend 11, .waitingDone, [], 1⟩ = none) :=
  ⟨fun _ => rfl, fun _ => rfl, rfl, rfl⟩

/-- Claim C3 as stated is false in two ways at concrete inputs: a call
made while running() is false executes its action inline with zero
dequeues, refuting that f runs strictly after being dequeued by the main
loop for every calling thread; and a reentrant call from the loop thread
leaves f unexecuted forever (empty log in a stuck state), refuting that f
runs exactly once for every calling thread. -/
theorem runOnMain_dequeue_not_universal :
    (stepN 1 ⟨false, .atSelect, .start (.incr 3), [], 0⟩ =
      some ⟨false, .atSelect, .returned, [3], 0⟩) ∧
    (stepN 3 ⟨true, .atSelect, .start (.callRunOnMain 9), [], 0⟩ =
      some ⟨true, .nestedSend 9, .waitingDone, [], 1⟩ ∧
     step ⟨true, .nestedSend 9, .waitingDone, [], 1⟩ = none) :=
  ⟨rfl, rfl, rfl⟩

/-- Amended C3: when runOnMain is called from a goroutine other than the
loop thread while the loop is running, the action is dequeued strictly
before it runs, runs exactly once, the done signal fires only after the
body finishes, and the caller returns only after the signal, observing the
effect.  When running() is false the action runs inline exactly once
before the call returns, with no dequeue.  A reentrant synchronous call
from the loop thread deadlocks instead. -/
theorem runOnMain_sync_completion_paths :
    (∀ k : Nat,
      stepN 2 ⟨true, .atSelect, .start (.incr k), [], 0⟩ =
        some ⟨true, .execBody (.incr k), .waitingDone, [], 1⟩ ∧
      stepN 3 ⟨true, .atSelect, .start (.incr k), [], 0⟩ =
        some ⟨true, .signalDone, .waitingDone, [k], 1⟩ ∧
      stepN 4 ⟨true, .atSelect, .start (.incr k), [], 0⟩ =
        some ⟨true, .atSelect, .returned, [k], 1⟩) ∧
    (∀ k : Nat, stepN 1 ⟨false, .atSelect, .start (.incr k), [], 0⟩ =
      some ⟨false, .atSelect, .returned, [k], 0⟩) ∧
    (stepN 3 ⟨true, .atSelect, .start (.callRunOnMain 13), [], 0⟩ =
      some ⟨true, .nestedSend 13, .waitingDone, [], 1⟩ ∧
     step ⟨true, .nestedSend 13, .waitingDone, [], 1⟩ = none) :=
  ⟨fun _ => ⟨rfl, rfl, rfl⟩, fun _ => rfl, rfl, rfl⟩

/-- Claim C2 as stated is false at a concrete input: dispatching actions
1 then 2 from one goroutine, the schedule in which the second spawned
sender reaches the channel first is legal, and the main thread then
executes 2 before 1 - not the order they were dispatched. -/
theorem runOnMainAsync_call_order_not_preserved :
    (runSched (runOnMainAsyncAll [1, 2])
      [.arrive 2, .arrive 1, .consume, .consume]).executed = [2, 1] ∧
    (runSched (runOnMainAsyncAll [1, 2])
      [.arrive 2, .arrive 1, .consume, .consume]).executed ≠ [1, 2] := by
  refine ⟨rfl, by decide⟩

theorem runSched_arrival_fifo_aux (sched : List AStep) :
    ∀ s : AsyncSys, s.arrived = s.executed ++ s.senderQ →
      (runSched s sched).arrived =
        (runSched s sched).executed ++ (runSched s sched).senderQ := by
  induction sched with
  | nil => intro s h; exact h
  | cons a rest ih =>
    intro s h
    show (runSched (astep s a) rest).arrived = _
    apply ih
    cases a with
    | arrive g =>
      by_cases hg : g ∈ s.spawned
      · simp [astep, hg, h]
      · simp [astep, hg, h]
    | consume =>
      cases hq : s.senderQ with
      | nil => simpa [astep, hq] using h
      | cons g rest2 =>
        simp [astep, hq]
        rw [h, hq]

/-- Amended C2: the main thread executes async-dispatched actions in the
order their sends arrive at the shared channel (single channel, single
consumer), under every schedule; but because each runOnMainAsync call
performs its send in a freshly spawned goroutine, that arrival order need
not match the order of the runOnMainAsync calls. -/
theorem runOnMainAsync_fifo_per_arrival (fs : List Nat) (sched : List AStep) :
    (runSched (runOnMainAsyncAll fs) sched).arrived =
      (runSched (runOnMainAsyncAll fs) sched).executed ++
        (runSched (runOnMainAsyncAll fs) sched).senderQ :=
  runSched_arrival_fifo_aux sched (runOnMainAsyncAll fs) rfl

/-! ### Splice lemmas: the live list before and after a removal -/

theorem spliceRemove_length (backing : List GoWin) (i len : Nat)
    (hi : i < len) (hlen : len ≤ backing.length) :
    (spliceRemove backing i len).length = backing.length := by
  simp [spliceRemove, List.length_append, List.length_take, List.length_drop]
  omega

theorem spliceRemove_take (backing : List GoWin) (i len : Nat)
    (hi : i < len) (hlen : len ≤ backing.length) :
    (spliceRemove backing i len).take (len - 1) =
      backing.take i ++ (backing.drop (i + 1)).take (len - 1 - i) := by
  have hP : (backing.take i).length = i := by
    simp [List.length_take]; omega
  have hS : ((backing.drop (i + 1)).take (len - 1 - i)).length = len - 1 - i := by
    simp [List.length_take, List.length_drop]; omega
  have hPS : (backing.take i ++ (backing.drop (i + 1)).take (len - 1 - i)).length
      = len - 1 := by
    rw [List.length_append, hP, hS]; omega
  unfold spliceRemove
  rw [List.take_append_eq_append_take, hPS,
      List.take_of_length_le (le_of_eq hPS), Nat.sub_self]
  simp

theorem take_eq_middle (backing : List GoWin) (i len : Nat) (win : GoWin)
    (hi : i < len) (hlen : len ≤ backing.length)
    (hwin : backing.get? i = some win) :
    backing.take len =
      backing.take i ++ win :: (backing.drop (i + 1)).take (len - 1 - i) := by
  have hib : i < backing.length := by omega
  have hget : backing[i] = win := by
    have := List.get?_eq_getElem? backing i
    rw [this, List.getElem?_eq_getElem hib] at hwin
    exact Option.some.inj hwin
  have hsplit : len = i + (len - i) := by omega
  have h4 : backing.take len = backing.take i ++ (backing.drop i).take (len - i) := by
    conv_lhs => rw [hsplit]
    rw [List.take_add]
  rw [h4]
  congr 1
  rw [List.drop_eq_getElem_cons hib, hget]
  have hsucc : len - i = (len - 1 - i) + 1 := by omega
  rw [hsucc]
  rfl

/-! ### Tick iteration invariants -/

theorem tickIter_basic (todo : Nat) :
    ∀ st i st', st.len ≤ st.backing.length → tickIter st i todo = some st' →
      st'.len ≤ st'.backing.length ∧ st'.backing.length = st.backing.length ∧
      List.Sublist (windowsOf st') (windowsOf st) := by
  induction todo with
  | zero =>
    intro st i st' hle h
    cases h
    exact ⟨hle, rfl, List.Sublist.refl _⟩
  | succ todo ih =>
    intro st i st' hle h
    unfold tickIter at h
    split at h
    · cases h
    · rename_i win hwin
      split at h
      · rename_i hclose
        split at h
        · rename_i hlt
          have hi : i < st.len := hlt
          have hlen2 : (spliceRemove st.backing i st.len).length =
              st.backing.length := spliceRemove_length _ _ _ hi hle
          have hrec := ih _ (i + 1) st'
            (by show st.len - 1 ≤ (spliceRemove st.backing i st.len).length
                rw [hlen2]; omega) h
          refine ⟨hrec.1, by rw [hrec.2.1]; exact hlen2, ?_⟩
          apply hrec.2.2.trans
          show List.Sublist ((spliceRemove st.backing i st.len).take (st.len - 1))
            (st.backing.take st.len)
          rw [spliceRemove_take _ _ _ hi hle, take_eq_middle _ _ _ win hi hle hwin]
          exact List.Sublist.append_left (List.sublist_cons_self _ _) _
        · cases h
      · split at h
        · exact ih ⟨st.backing, st.len, st.quit,
            st.effects ++ [Effect.drained win, Effect.painted win,
              Effect.swapped win]⟩ (i + 1) st' hle h
        · exact ih ⟨st.backing, st.len, st.quit,
            st.effects ++ [Effect.drained win]⟩ (i + 1) st' hle h

theorem tickIter_effects_mono (todo : Nat) :
    ∀ st i st', tickIter st i todo = some st' →
      ∀ e ∈ st.effects, e ∈ st'.effects := by
  induction todo with
  | zero =>
    intro st i st' h e he
    cases h
    exact he
  | succ todo ih =>
    intro st i st' h e he
    unfold tickIter at h
    split at h
    · cases h
    · rename_i win hwin
      split at h
      · split at h
        · exact ih _ (i + 1) st' h e (List.mem_append_left _ he)
        · cases h
      · split at h
        · exact ih _ (i + 1) st' h e (List.mem_append_left _ he)
        · exact ih _ (i + 1) st' h e (List.mem_append_left _ he)

theorem tickIter_masterQuit (todo : Nat) :
    ∀ st i st', tickIter st i todo = some st' → MasterQuit st → MasterQuit st' := by
  induction todo with
  | zero =>
    intro st i st' h hm
    cases h
    exact hm
  | succ todo ih =>
    intro st i st' h hm
    unfold tickIter at h
    split at h
    · cases h
    · rename_i win hwin
      split at h
      · split at h
        · refine ih _ (i + 1) st' h ?_
          unfold MasterQuit at hm ⊢
          simp only []
          constructor
          · intro hq
            have hq2 : st.quit = true ∨ win.master = true := by
              simpa [Bool.or_eq_true] using hq
            rcases hq2 with hq2 | hq2
            · rcases hm.mp hq2 with ⟨w, hw, hwm⟩
              exact ⟨w, List.mem_append_left _ hw, hwm⟩
            · exact ⟨win, by simp, hq2⟩
          · rintro ⟨w, hw, hwm⟩
            show (st.quit || win.master) = true
            rcases List.mem_append.mp hw with hw | hw
            · have := hm.mpr ⟨w, hw, hwm⟩
              simp [this]
            · simp only [List.mem_cons] at hw
              rcases hw with hw | hw | hw
              · cases hw
              · cases hw
                simp [hwm]
              · cases hw
        · cases h
      · split at h
        · refine ih _ (i + 1) st' h ?_
          unfold MasterQuit at hm ⊢
          simp only []
          constructor
          · intro hq
            rcases hm.mp hq with ⟨w, hw, hwm⟩
            exact ⟨w, List.mem_append_left _ hw, hwm⟩
          · rintro ⟨w, hw, hwm⟩
            rcases List.mem_append.mp hw with hw | hw
            · exact hm.mpr ⟨w, hw, hwm⟩
            · simp at hw
        · refine ih _ (i + 1) st' h ?_
          unfold MasterQuit at hm ⊢
          simp only []
          constructor
          · intro hq
            rcases hm.mp hq with ⟨w, hw, hwm⟩
            exact ⟨w, List.mem_append_left _ hw, hwm⟩
          · rintro ⟨w, hw, hwm⟩
            rcases List.mem_append.mp hw with hw | hw
            · exact hm.mpr ⟨w, hw, hwm⟩
            · simp at hw

theorem tickIter_paintDirty (todo : Nat) :
    ∀ st i st', tickIter st i todo = some st' → PaintDirty st → PaintDirty st' := by
  induction todo with
  | zero =>
    intro st i st' h hp
    cases h
    exact hp
  | succ todo ih =>
    intro st i st' h hp
    unfold tickIter at h
    split at h
    · cases h
    · rename_i win hwin
      split at h
      · split at h
        · refine ih _ (i + 1) st' h ?_
          intro w
          constructor
          · intro hw
            rcases List.mem_append.mp hw with hw | hw
            · exact (hp w).1 hw
            · simp at hw
          · intro hw
            rcases List.mem_append.mp hw with hw | hw
            · exact (hp w).2 hw
            · simp at hw
        · cases h
      · rename_i hclose
        split at h
        · rename_i hdirty
          refine ih _ (i + 1) st' h ?_
          intro w
          constructor
          · intro hw
            rcases List.mem_append.mp hw with hw | hw
            · exact (hp w).1 hw
            · simp only [List.mem_cons] at hw
              rcases hw with hw | hw | hw | hw
              · cases hw
              · cases hw; exact hdirty
              · cases hw
              · cases hw
          · intro hw
            rcases List.mem_append.mp hw with hw | hw
            · exact (hp w).2 hw
            · simp only [List.mem_cons] at hw
              rcases hw with hw | hw | hw | hw
              · cases hw
              · cases hw
              · cases hw; exact hdirty
              · cases hw
        · refine ih _ (i + 1) st' h ?_
          intro w
          constructor
          · intro hw
            rcases List.mem_append.mp hw with hw | hw
            · exact (hp w).1 hw
            · simp at hw
          · intro hw
            rcases List.mem_append.mp hw with hw | hw
            · exact (hp w).2 hw
            · simp at hw

theorem tickIter_destroyedGone (todo : Nat) :
    ∀ st i st', st.len ≤ st.backing.length → tickIter st i todo = some st' →
      DestroyedGone st → DestroyedGone st' := by
  induction todo with
  | zero =>
    intro st i st' hle h hd
    cases h
    exact hd
  | succ todo ih =>
    intro st i st' hle h hd
    unfold tickIter at h
    split at h
    · cases h
    · rename_i win hwin
      split at h
      · split at h
        · rename_i hlt
          have hi : i < st.len := hlt
          have hlen2 : (spliceRemove st.backing i st.len).length =
              st.backing.length := spliceRemove_length _ _ _ hi hle
          refine ih _ (i + 1) st'
            (by show st.len - 1 ≤ (spliceRemove st.backing i st.len).length
                rw [hlen2]; omega) h ?_
          have hW : windowsOf st =
              st.backing.take i ++ win ::
                (st.backing.drop (i + 1)).take (st.len - 1 - i) :=
            take_eq_middle _ _ _ win hi hle hwin
          have hW2 : (spliceRemove st.backing i st.len).take (st.len - 1) =
              st.backing.take i ++
                (st.backing.drop (i + 1)).take (st.len - 1 - i) :=
            spliceRemove_take _ _ _ hi hle
          have hsubPS : List.Sublist
              (st.backing.take i ++
                (st.backing.drop (i + 1)).take (st.len - 1 - i))
              (windowsOf st) := by
            rw [hW]
            exact List.Sublist.append_left (List.sublist_cons_self _ _) _
          have hnd2 : (st.backing.take i ++
              (st.backing.drop (i + 1)).take (st.len - 1 - i)).Nodup :=
            List.Nodup.sublist hsubPS hd.1
          have hwinout : win ∉ st.backing.take i ++
              (st.backing.drop (i + 1)).take (st.len - 1 - i) := by
            have hnd := hd.1
            rw [hW] at hnd
            rcases List.nodup_append.mp hnd with ⟨-, ndWS, disj⟩
            intro hmem
            rcases List.mem_append.mp hmem with hP | hS
            · exact disj hP (List.mem_cons_self _ _)
            · exact (List.nodup_cons.mp ndWS).1 hS
          constructor
          · show ((spliceRemove st.backing i st.len).take (st.len - 1)).Nodup
            rw [hW2]
            exact hnd2
          · intro w hw
            show w ∉ (spliceRemove st.backing i st.len).take (st.len - 1)
            rw [hW2]
            rcases List.mem_append.mp hw with hw | hw
            · intro hmem
              exact hd.2 w hw (hsubPS.subset hmem)
            · simp only [List.mem_cons] at hw
              rcases hw with hw | hw | hw
              · cases hw
              · cases hw
                exact hwinout
              · cases hw
        · cases h
      · split at h
        · refine ih ⟨st.backing, st.len, st.quit,
            st.effects ++ [Effect.drained win, Effect.painted win,
              Effect.swapped win]⟩ (i + 1) st' hle h ?_
          refine ⟨hd.1, ?_⟩
          intro w hw
          rcases List.mem_append.mp hw with hw | hw
          · exact hd.2 w hw
          · simp only [List.mem_cons] at hw
            rcases hw with hw | hw | hw | hw
            · cases hw
            · cases hw
            · cases hw
            · cases hw
        · refine ih ⟨st.backing, st.len, st.quit,
            st.effects ++ [Effect.drained win]⟩ (i + 1) st' hle h ?_
          refine ⟨hd.1, ?_⟩
          intro w hw
          rcases List.mem_append.mp hw with hw | hw
          · exact hd.2 w hw
          · simp only [List.mem_cons] at hw
            rcases hw with hw | hw
            · cases hw
            · cases hw

theorem tickIter_noClose (todo : Nat) :
    ∀ st i, (∀ w ∈ st.backing, w.shouldClose = false) →
      i + todo ≤ st.backing.length →
      ∃ st', tickIter st i todo = some st' ∧ st'.backing = st.backing ∧
        st'.len = st.len ∧
        ∀ j w, i ≤ j → j < i + todo → st.backing.get? j = some w →
          Effect.drained w ∈ st'.effects := by
  induction todo with
  | zero =>
    intro st i hnc hlen
    exact ⟨st, rfl, rfl, rfl, by intro j w h1 h2 h3; omega⟩
  | succ todo ih =>
    intro st i hnc hlen
    have hib : i < st.backing.length := by omega
    have hwin : st.backing.get? i = some st.backing[i] := by
      rw [List.get?_eq_getElem?]
      exact List.getElem?_eq_getElem hib
    have hmem : st.backing[i] ∈ st.backing := List.getElem_mem hib
    have hnclose : st.backing[i].shouldClose = false := hnc _ hmem
    by_cases hdirty : st.backing[i].dirty = true
    · rcases ih ⟨st.backing, st.len, st.quit,
        st.effects ++ [Effect.drained st.backing[i],
          Effect.painted st.backing[i], Effect.swapped st.backing[i]]⟩ (i + 1)
        hnc (by show i + 1 + todo ≤ st.backing.length; omega) with
        ⟨st', h1, h2, h3, h4⟩
      refine ⟨st', ?_, h2, h3, ?_⟩
      · unfold tickIter
        simp only [hwin, hnclose, hdirty]
        exact h1
      · intro j w hj1 hj2 hj3
        by_cases hji : j = i
        · subst hji
          rw [hwin] at hj3
          injection hj3 with hww
          subst hww
          exact tickIter_effects_mono todo _ _ st' h1 _ (by simp)
        · exact h4 j w (by omega) (by omega) hj3
    · rcases ih ⟨st.backing, st.len, st.quit,
        st.effects ++ [Effect.drained st.backing[i]]⟩ (i + 1)
        hnc (by show i + 1 + todo ≤ st.backing.length; omega) with
        ⟨st', h1, h2, h3, h4⟩
      refine ⟨st', ?_, h2, h3, ?_⟩
      · unfold tickIter
        simp only [hwin, hnclose, hdirty]
        exact h1
      · intro j w hj1 hj2 hj3
        by_cases hji : j = i
        · subst hji
          rw [hwin] at hj3
          injection hj3 with hww
          subst hww
          exact tickIter_effects_mono todo _ _ st' h1 _ (by simp)
        · exact h4 j w (by omega) (by omega) hj3

/-- Claim C6: removing closed windows during a render tick preserves the
window-set invariant: the resulting window list is a subsequence of the
original (no duplicates introduced, relative order preserved), and in the
concrete scenario with windows A, B, C where only B has its close flag
set, one tick leaves exactly A then C. -/
theorem window_removal_preserves_invariant :
    (∀ (ws : List GoWin) (st' : TickSt), renderTick ws = some st' →
      List.Sublist (windowsOf st') ws ∧ (ws.Nodup → (windowsOf st').Nodup)) ∧
    (renderTick [winA, winB, winC]).map windowsOf = some [winA, winC] := by
  constructor
  · intro ws st' h
    have hb := tickIter_basic ws.length ⟨ws, ws.length, false, []⟩ 0 st'
      (Nat.le_refl _) h
    have hw : windowsOf ⟨ws, ws.length, false, []⟩ = ws := List.take_length ws
    rw [hw] at hb
    exact ⟨hb.2.2, fun hnd => List.Nodup.sublist hb.2.2 hnd⟩
  · decide

/-- Witness for C6 at the concrete scenario from the claim. -/
theorem window_removal_preserves_invariant_witness :
    List.Sublist
      (windowsOf ⟨[winA, winC, winC], 2, false,
        [Effect.drained winA, Effect.drained winB, Effect.destroyed winB,
         Effect.drained winC]⟩) [winA, winB, winC] ∧
    (windowsOf ⟨[winA, winC, winC], 2, false,
        [Effect.drained winA, Effect.drained winB, Effect.destroyed winB,
         Effect.drained winC]⟩).Nodup := by
  have h := window_removal_preserves_invariant.1 [winA, winB, winC]
    ⟨[winA, winC, winC], 2, false,
     [Effect.drained winA, Effect.drained winB, Effect.destroyed winB,
      Effect.drained winC]⟩ (by decide)
  exact ⟨h.1, h.2 (by decide)⟩

/-- Claim C8 as stated is false at a concrete input: in a tick over
windows P (close flag set), Q, R, the in-place removal of P shifts the
array under the captured range header, so index 1 now holds R; window Q is
never visited, its texture queue is not drained in that tick (and R is
visited twice). -/
theorem drain_skipped_after_removal :
    renderTick [winP, winQ, winR] =
      some ⟨[winQ, winR, winR], 2, false,
        [Effect.drained winP, Effect.destroyed winP,
         Effect.drained winR, Effect.drained winR]⟩ ∧
    winQ ∈ [winP, winQ, winR] ∧
    Effect.drained winQ ∉
      [Effect.drained winP, Effect.destroyed winP,
       Effect.drained winR, Effect.drained winR] := by
  exact ⟨by decide, by decide, by decide⟩

/-- Amended C8: in any completed tick, a window whose canvas is not dirty
receives no paint and no swap; and in a tick in which no window has its
close flag set, every window is visited and has its texture queue drained
regardless of dirtiness.  When an earlier window is removed during the
tick, later windows can be skipped, so the unconditional drain only holds
for visited windows. -/
theorem notDirty_no_paint_drain_visited :
    (∀ (ws : List GoWin) (st' : TickSt) (w : GoWin), renderTick ws = some st' →
      w.dirty = false →
      Effect.painted w ∉ st'.effects ∧ Effect.swapped w ∉ st'.effects) ∧
    (∀ ws : List GoWin, (∀ w ∈ ws, w.shouldClose = false) →
      ∃ st', renderTick ws = some st' ∧
        ∀ w ∈ ws, Effect.drained w ∈ st'.effects) := by
  constructor
  · intro ws st' w h hdirty
    have hp := tickIter_paintDirty ws.length ⟨ws, ws.length, false, []⟩ 0 st' h
      (fun w2 => ⟨fun hw => absurd hw (List.not_mem_nil _),
                  fun hw => absurd hw (List.not_mem_nil _)⟩)
    constructor
    · intro hw
      have := (hp w).1 hw
      rw [hdirty] at this
      cases this
    · intro hw
      have := (hp w).2 hw
      rw [hdirty] at this
      cases this
  · intro ws hnc
    rcases tickIter_noClose ws.length ⟨ws, ws.length, false, []⟩ 0 hnc
      (by show 0 + ws.length ≤ ws.length; omega) with ⟨st', h1, h2, h3, h4⟩
    refine ⟨st', h1, ?_⟩
    intro w hw
    rcases List.mem_iff_get?.mp hw with ⟨j, hj⟩
    rcases List.get?_eq_some.mp hj with ⟨hlt, -⟩
    exact h4 j w (Nat.zero_le _) (by omega) hj

/-- Witness for the amended C8 at a single not-dirty window. -/
theorem notDirty_no_paint_drain_visited_witness :
    (Effect.painted winA ∉
        (⟨[winA], 1, false, [Effect.drained winA]⟩ : TickSt).effects ∧
     Effect.swapped winA ∉
        (⟨[winA], 1, false, [Effect.drained winA]⟩ : TickSt).effects) ∧
    (∃ st', renderTick [winA] = some st' ∧
      ∀ w ∈ [winA], Effect.drained w ∈ st'.effects) := by
  constructor
  · exact notDirty_no_paint_drain_visited.1 [winA]
      ⟨[winA], 1, false, [Effect.drained winA]⟩ winA (by decide) (by decide)
  · exact notDirty_no_paint_drain_visited.2 [winA] (by decide)

theorem dstep_flag_stage (s : DriverState) (d : DStep)
    (hinv : s.runFlag = true ↔ s.stage ≠ .notStarted) :
    (dstep s d).runFlag = true ↔ (dstep s d).stage ≠ .notStarted := by
  cases d with
  | start =>
    by_cases h : s.stage = .notStarted
    · simp [dstep, h]
    · simp [dstep, h, hinv]
  | quit => exact hinv
  | selectOnce =>
    by_cases h : s.stage = .looping ∧ s.donePending = true
    · have hflag : s.runFlag = true := hinv.mpr (by rw [h.1]; intro hc; cases hc)
      simp [dstep, h, hflag]
    · simp [dstep, h, hinv]
  | tickOnce =>
    by_cases h : s.stage = .looping
    · have hflag : s.runFlag = true := hinv.mpr (by rw [h]; intro hc; cases hc)
      cases htick : renderTick s.windows with
      | some st => simp [dstep, h, htick, hflag]
      | none => simp [dstep, h, htick, hflag]
    · simp [dstep, h, hinv]

theorem applySteps_flag_stage (l : List DStep) :
    ∀ s : DriverState, (s.runFlag = true ↔ s.stage ≠ .notStarted) →
      ((applySteps s l).runFlag = true ↔
        (applySteps s l).stage ≠ .notStarted) := by
  induction l with
  | nil => intro s hinv; exact hinv
  | cons d rest ih =>
    intro s hinv
    exact ih (dstep s d) (dstep_flag_stage s d hinv)

theorem dstep_flag_mono (s : DriverState) (d : DStep)
    (h : s.runFlag = true) : (dstep s d).runFlag = true := by
  cases d with
  | start =>
    by_cases hs : s.stage = .notStarted <;> simp [dstep, hs, h]
  | quit => exact h
  | selectOnce =>
    by_cases hs : s.stage = .looping ∧ s.donePending = true <;>
      simp [dstep, hs, h]
  | tickOnce =>
    by_cases hs : s.stage = .looping
    · cases htick : renderTick s.windows with
      | some st => simp [dstep, hs, htick, h]
      | none => simp [dstep, hs, htick, h]
    · simp [dstep, hs, h]

/-- Claim C4 as stated is false at a concrete input: start the loop, ask
for shutdown, let the select consume the signal.  The loop has terminated
(stage exited after the return at line 67) yet running() still reports
true, because nothing ever writes the flag back to false. -/
theorem runFlag_not_reset_on_exit :
    (applySteps (driverStart []) [DStep.start, DStep.quit, DStep.selectOnce]).stage
      = LoopStage.exited ∧
    running (applySteps (driverStart [])
      [DStep.start, DStep.quit, DStep.selectOnce]) = true := by
  exact ⟨by decide, by decide⟩

/-- Amended C4: running() flips from false to true when runGL starts, and
is never written again: it stays true monotonically, so after the loop
exits running() still reports true.  In every reachable driver state,
running() is true exactly when the loop has ever been started - not when
it is still running. -/
theorem runFlag_monotone_lifecycle :
    (∀ (ws : List GoWin) (l : List DStep),
      running (applySteps (driverStart ws) l) = true ↔
        (applySteps (driverStart ws) l).stage ≠ LoopStage.notStarted) ∧
    (∀ ws : List GoWin,
      dstep (driverStart ws) DStep.start = ⟨true, .looping, false, ws⟩) ∧
    (∀ (s : DriverState) (d : DStep), s.runFlag = true →
      (dstep s d).runFlag = true) := by
  refine ⟨?_, ?_, dstep_flag_mono⟩
  · intro ws l
    exact applySteps_flag_stage l (driverStart ws)
      (by constructor
          · intro h; cases h
          · intro h; exact absurd rfl h)
  · intro ws
    rfl

/-- Witness for the amended C4. -/
theorem runFlag_monotone_lifecycle_witness :
    (running (applySteps (driverStart []) [DStep.start]) = true ↔
      (applySteps (driverStart []) [DStep.start]).stage ≠ LoopStage.notStarted) ∧
    (dstep (driverStart []) DStep.start =
      ⟨true, LoopStage.looping, false, []⟩) ∧
    (dstep ⟨true, LoopStage.looping, false, []⟩ DStep.quit).runFlag = true :=
  ⟨runFlag_monotone_lifecycle.1 [] [DStep.start],
   runFlag_monotone_lifecycle.2.1 [],
   runFlag_monotone_lifecycle.2.2 ⟨true, LoopStage.looping, false, []⟩
     DStep.quit rfl⟩

/-- Claim C7: in a completed tick from a running loop with no shutdown
signal pending, the window list becomes the tick result; the quit signal
is requested exactly when one of the windows destroyed in that tick had
the master flag; if so, the next select consumes the signal and the loop
terminates, and if not, the loop keeps running and keeps serving the
remaining windows; and a destroyed window is gone from the window set. -/
theorem master_close_shutdown_iff (s : DriverState) (st' : TickSt)
    (hstage : s.stage = .looping) (hdone : s.donePending = false)
    (htick : renderTick s.windows = some st') :
    (dstep s DStep.tickOnce).windows = windowsOf st' ∧
    (st'.quit = true ↔
      ∃ w, Effect.destroyed w ∈ st'.effects ∧ w.master = true) ∧
    (st'.quit = true →
      (dstep (dstep s DStep.tickOnce) DStep.selectOnce).stage =
        LoopStage.exited) ∧
    (st'.quit = false →
      (dstep (dstep s DStep.tickOnce) DStep.selectOnce).stage =
        LoopStage.looping ∧
      (dstep (dstep s DStep.tickOnce) DStep.selectOnce).windows =
        windowsOf st') ∧
    (s.windows.Nodup → ∀ w, Effect.destroyed w ∈ st'.effects →
      w ∉ windowsOf st') := by
  have hs1 : dstep s DStep.tickOnce =
      { s with windows := windowsOf st', donePending := st'.quit } := by
    simp [dstep, hstage, htick, hdone]
  refine ⟨by rw [hs1], ?_, ?_, ?_, ?_⟩
  · exact tickIter_masterQuit s.windows.length
      ⟨s.windows, s.windows.length, false, []⟩ 0 st' htick
      (by simp [MasterQuit])
  · intro hq
    rw [hs1]
    simp [dstep, hstage, hq]
  · intro hq
    constructor
    · rw [hs1]
      simp [dstep, hstage, hq]
    · rw [hs1]
      simp [dstep, hstage, hq]
  · intro hnd w hw
    have hw0 : windowsOf ⟨s.windows, s.windows.length, false, []⟩ = s.windows :=
      List.take_length s.windows
    have hdg := tickIter_destroyedGone s.windows.length
      ⟨s.windows, s.windows.length, false, []⟩ 0 st' (Nat.le_refl _) htick
      (by rw [DestroyedGone, hw0]
          exact ⟨hnd, fun w2 hw2 => absurd hw2 (List.not_mem_nil _)⟩)
    exact hdg.2 w hw

/-- Witness for C7: one master window with the close flag set: the tick
empties the window list, requests shutdown, and the next select exits the
loop. -/
theorem master_close_shutdown_iff_witness :
    (dstep ⟨true, LoopStage.looping, false, [winM]⟩ DStep.tickOnce).windows
      = ([] : List GoWin) ∧
    (dstep (dstep ⟨true, LoopStage.looping, false, [winM]⟩ DStep.tickOnce)
      DStep.selectOnce).stage = LoopStage.exited := by
  have h := master_close_shutdown_iff ⟨true, LoopStage.looping, false, [winM]⟩
    ⟨[winM], 0, true, [Effect.drained winM, Effect.destroyed winM]⟩
    rfl rfl (by decide)
  exact ⟨h.1, h.2.2.1 rfl⟩

theorem texLookup_eq_none (c : List (Nat × Nat)) (o : Nat)
    (h : o ∉ c.map Prod.fst) : texLookup c o = none := by
  induction c with
  | nil => rfl
  | cons p rest ih =>
    simp only [List.map_cons, List.mem_cons] at h
    push_neg at h
    cases p with
    | mk k v =>
      show (if k = o then some v else texLookup rest o) = none
      rw [if_neg (fun hk => h.1 (by rw [hk])), ih h.2]

theorem texDelete_keys_subset (c : List (Nat × Nat)) (o : Nat) :
    ∀ k ∈ (texDelete c o).map Prod.fst, k ∈ c.map Prod.fst := by
  induction c with
  | nil => intro k hk; exact hk
  | cons p rest ih =>
    intro k hk
    cases p with
    | mk kp vp =>
      by_cases h : kp = o
      · simp only [texDelete, if_pos h] at hk
        exact List.mem_cons_of_mem _ hk
      · simp only [texDelete, if_neg h, List.map_cons, List.mem_cons] at hk ⊢
        rcases hk with hk | hk
        · exact Or.inl hk
        · exact Or.inr (ih k hk)

theorem texDelete_keys_nodup (c : List (Nat × Nat)) (o : Nat)
    (hnd : (c.map Prod.fst).Nodup) : ((texDelete c o).map Prod.fst).Nodup := by
  induction c with
  | nil => exact hnd
  | cons p rest ih =>
    cases p with
    | mk k v =>
      simp only [List.map_cons, List.nodup_cons] at hnd
      by_cases h : k = o
      · show ((if k = o then rest else _).map Prod.fst).Nodup
        rw [if_pos h]
        exact hnd.2
      · show ((if k = o then rest
            else (k, v) :: texDelete rest o).map Prod.fst).Nodup
        rw [if_neg h]
        simp only [List.map_cons, List.nodup_cons]
        exact ⟨fun hk => hnd.1 (texDelete_keys_subset rest o k hk), ih hnd.2⟩

theorem texLookup_texDelete_self (c : List (Nat × Nat)) (o : Nat)
    (hnd : (c.map Prod.fst).Nodup) : texLookup (texDelete c o) o = none := by
  induction c with
  | nil => rfl
  | cons p rest ih =>
    cases p with
    | mk k v =>
      simp only [List.map_cons, List.nodup_cons] at hnd
      by_cases h : k = o
      · show texLookup (if k = o then rest else _) o = none
        rw [if_pos h]
        apply texLookup_eq_none
        rw [← h]
        exact hnd.1
      · show texLookup (if k = o then rest else (k, v) :: texDelete rest o) o
          = none
        rw [if_neg h]
        show (if k = o then some v else texLookup (texDelete rest o) o) = none
        rw [if_neg h, ih hnd.2]

theorem foldl_freeWalked_skip (object : Nat) (l : List Nat) :
    ∀ st : GCSt, (texLookup st.textures object = none ∨
      texLookup st.textures object = some 0) →
      l.foldl (freeWalked object) st = st := by
  induction l with
  | nil => intro st _; rfl
  | cons x rest ih =>
    intro st hst
    have hstep : freeWalked object st x = st := by
      rcases hst with hst | hst <;> simp [freeWalked, hst]
    show rest.foldl (freeWalked object) (freeWalked object st x) = st
    rw [hstep]
    exact ih st hst

theorem processDirtyObject_spec (cache : List (Nat × Nat)) (dels : List Nat)
    (t : ObjTree) (hnd : (cache.map Prod.fst).Nodup) :
    processDirtyObject ⟨cache, dels⟩ t =
      match texLookup cache t.rootId with
      | some h => if 0 < h then ⟨texDelete cache t.rootId, dels ++ [h]⟩
                  else ⟨cache, dels⟩
      | none => ⟨cache, dels⟩ := by
  cases t with
  | node oid cs =>
    show (walkTree (ObjTree.node oid cs)).foldl (freeWalked oid) ⟨cache, dels⟩
      = match texLookup cache oid with
        | some h => if 0 < h then ⟨texDelete cache oid, dels ++ [h]⟩
                    else ⟨cache, dels⟩
        | none => ⟨cache, dels⟩
    rw [walkTree]
    show (walkForest cs).foldl (freeWalked oid)
      (freeWalked oid ⟨cache, dels⟩ oid) = _
    cases hl : texLookup cache oid with
    | none =>
      have hstep : freeWalked oid ⟨cache, dels⟩ oid = ⟨cache, dels⟩ := by
        simp [freeWalked, hl]
      rw [hstep, foldl_freeWalked_skip oid (walkForest cs) ⟨cache, dels⟩
        (Or.inl hl)]
    | some h =>
      by_cases hpos : 0 < h
      · have hstep : freeWalked oid ⟨cache, dels⟩ oid =
            ⟨texDelete cache oid, dels ++ [h]⟩ := by
          simp [freeWalked, hl, hpos]
        rw [hstep, foldl_freeWalked_skip oid (walkForest cs)
          ⟨texDelete cache oid, dels ++ [h]⟩
          (Or.inl (texLookup_texDelete_self cache oid hnd))]
        simp [hpos]
      · have h0 : h = 0 := by omega
        have hstep : freeWalked oid ⟨cache, dels⟩ oid = ⟨cache, dels⟩ := by
          simp [freeWalked, hl, hpos]
        rw [hstep, foldl_freeWalked_skip oid (walkForest cs) ⟨cache, dels⟩
          (Or.inr (by rw [hl, h0]))]
        simp [hpos]

/-- Claim C5: for each canvas object dequeued from the refresh queue, the
garbage collector looks up the entry of that object in the texture cache;
when an entry with a nonzero handle is present it issues exactly one GPU
texture deletion and removes that same entry in the same step; when no
entry is present nothing happens and no error is raised; and processing
the same object twice yields at most one deletion in total. -/
theorem freeDirtyTextures_gc_spec (cache : List (Nat × Nat)) (t : ObjTree)
    (hnd : (cache.map Prod.fst).Nodup) :
    (∀ h, texLookup cache t.rootId = some h → 0 < h →
      processDirtyObject ⟨cache, []⟩ t = ⟨texDelete cache t.rootId, [h]⟩ ∧
      texLookup (texDelete cache t.rootId) t.rootId = none) ∧
    (texLookup cache t.rootId = none →
      processDirtyObject ⟨cache, []⟩ t = ⟨cache, []⟩) ∧
    (freeDirtyTextures ⟨cache, []⟩ [t, t]).deletions.length ≤ 1 := by
  have hnd2 : ((texDelete cache t.rootId).map Prod.fst).Nodup :=
    texDelete_keys_nodup cache t.rootId hnd
  refine ⟨?_, ?_, ?_⟩
  · intro h hl hpos
    rw [processDirtyObject_spec cache [] t hnd, hl]
    simp only [hpos, if_true]
    exact ⟨rfl, texLookup_texDelete_self cache t.rootId hnd⟩
  · intro hl
    rw [processDirtyObject_spec cache [] t hnd, hl]
  · show (processDirtyObject (processDirtyObject ⟨cache, []⟩ t) t).deletions.length ≤ 1
    rw [processDirtyObject_spec cache [] t hnd]
    cases hl : texLookup cache t.rootId with
    | none =>
      rw [processDirtyObject_spec cache [] t hnd, hl]
      simp
    | some h =>
      by_cases hpos : 0 < h
      · simp only [hpos, if_true, List.nil_append]
        rw [processDirtyObject_spec (texDelete cache t.rootId) [h] t hnd2,
          texLookup_texDelete_self cache t.rootId hnd]
        simp
      · simp only [hpos, if_false]
        rw [processDirtyObject_spec cache [] t hnd, hl]
        simp [hpos]

/-- Witness for C5: a cache holding a nonzero handle for the dequeued
object; one deletion happens, the entry disappears, and a second pass
deletes nothing further. -/
theorem freeDirtyTextures_gc_spec_witness :
    processDirtyObject ⟨[(1, 5)], []⟩ (ObjTree.node 1 [ObjTree.node 2 []]) =
      ⟨[], [5]⟩ ∧
    texLookup ([] : List (Nat × Nat)) 1 = none ∧
    (freeDirtyTextures ⟨[(1, 5)], []⟩
      [ObjTree.node 1 [ObjTree.node 2 []],
       ObjTree.node 1 [ObjTree.node 2 []]]).deletions.length ≤ 1 := by
  have h := freeDirtyTextures_gc_spec [(1, 5)]
    (ObjTree.node 1 [ObjTree.node 2 []]) (by decide)
  have h1 := h.1 5 (by decide) (by decide)
  exact ⟨h1.1, h1.2, h.2.2⟩
